import Mathlib

/-!
Verification of the decomposition pass in `python/paddle/decomposition`
(`decomp.py` and `rules.py`) against its natural-language specification.

The pass is shallowly embedded: the mutable PIR graph becomes explicit
state passing over a list of operations, Python exceptions become an
`Except`-style result paired with the state that was mutated before the
raise, and the external collaborators that the spec declares out of scope
(the registered per-operator rules, `call_decomp`, `call_vjp`,
`ir_backward.grad`) are abstracted into an oracle record whose outputs
each embedded function consumes exactly the way `decomp.py` does.
-/

namespace DecompPass

/-- A PIR value (`pir.OpResult` / `pir.Value`): identity, dtype, shape and
the `initialized()` flag.  Equality of two `Val`s models Python `==` on
`OpResult`, which compares the underlying IR value. -/
structure Val where
  vid : Nat
  dtype : String
  shape : List Int
  initialized : Bool
deriving DecidableEq, Repr

/-- A PIR operation: identity (`oid` models Python object identity inside a
block), name, declared input names (`get_input_names`), declared output
names (`get_output_names`), operand sources (`[x.source() for x in
op.operands()]`) and results (`op.results()`). -/
structure Op where
  oid : Nat
  name : String
  inputNames : List String
  outputNames : List String
  operands : List Val
  results : List Val
deriving DecidableEq, Repr

/-- A block is an ordered list of operations (`block.ops`). -/
abbrev Blk := List Op

/-- `grad_var_to_var`: a Python dict in insertion order, keys are grad
values, values are forward values. -/
abbrev GVMap := List (Val × Val)

/-- Errors raised by the pass: Python `AssertionError`, `ValueError`,
`TypeError` and `RuntimeError`, with the validator failures split out so
that each assert site of `_check_op_results` is distinguishable. -/
inductive Err where
  | countMismatch
  | unexpectedNone
  | dtypeMismatch
  | shapeUnresolved
  | shapeMismatch
  | assertFail (site : String)
  | valueError (site : String)
  | typeError (site : String)
  | runtimeError (site : String)
deriving DecidableEq, Repr

instance {ε α : Type} [DecidableEq ε] [DecidableEq α] : DecidableEq (Except ε α)
  | .error a, .error b =>
    if h : a = b then isTrue (by rw [h]) else isFalse (by intro c; cases c; exact h rfl)
  | .error _, .ok _ => isFalse (by intro c; cases c)
  | .ok _, .error _ => isFalse (by intro c; cases c)
  | .ok a, .ok b =>
    if h : a = b then isTrue (by rw [h]) else isFalse (by intro c; cases c; exact h rfl)

/-- Character-list prefix test (executable in the kernel, unlike the
builtin string-position primitives). -/
def isPrefixChars : List Char → List Char → Bool
  | [], _ => true
  | _ :: _, [] => false
  | a :: as, b :: bs => a == b && isPrefixChars as bs

def hasSubstrChars (sub : List Char) : List Char → Bool
  | [] => isPrefixChars sub []
  | c :: cs => isPrefixChars sub (c :: cs) || hasSubstrChars sub cs

/-- Python substring test `sub in s`. -/
def hasSubstr (sub s : String) : Bool :=
  hasSubstrChars sub.data s.data

/-- Python `s.endswith(post)`. -/
def strEndsWith (s post : String) : Bool :=
  isPrefixChars post.data.reverse s.data.reverse

/-- Dict lookup (first matching key). -/
def gvLookup (gv : GVMap) (k : Val) : Option Val :=
  (gv.find? (fun p => p.1 == k)).map (·.2)

/-- Dict key-membership test. -/
def gvHasKey (gv : GVMap) (k : Val) : Bool :=
  (gvLookup gv k).isSome

/-- Dict `pop`: remove the binding of `k`. -/
def gvErase (gv : GVMap) (k : Val) : GVMap :=
  gv.filter (fun p => p.1 != k)

/-- Dict assignment `gv[k] = v`: overwrite in place if the key exists,
append otherwise (Python dict insertion order). -/
def gvSet (gv : GVMap) (k v : Val) : GVMap :=
  if gvHasKey gv k then gv.map (fun p => if p.1 == k then (k, v) else p)
  else gv ++ [(k, v)]

/-- Name of the operation in `b` producing `v` (`v.get_defining_op().name()`);
`none` when no operation of the block defines `v`. -/
def defOpName (b : Blk) (v : Val) : Option String :=
  (b.find? (fun o => o.results.contains v)).map (·.name)

/-- Number of use edges of `v` in `b`: operand slots whose source is `v`. -/
def useCount (b : Blk) (v : Val) : Nat :=
  (b.map (fun o => (o.operands.filter (fun w => w == v)).length)).sum

/-- `value.has_one_use()`. -/
def hasOneUse (b : Blk) (v : Val) : Bool :=
  useCount b v == 1

/-- `block.remove_op(op)`: removal by object identity. -/
def removeByOid (b : Blk) (k : Nat) : Blk :=
  b.eraseP (fun o => o.oid == k)

/-- Rewire one operand: if it is one of `olds`, replace it by the
corresponding entry of `news` (slots whose replacement is `none` keep the
original use; the source never pairs a used result with `None`). -/
def rewireVal (olds : List Val) (news : List (Option Val)) (v : Val) : Val :=
  match (olds.zip news).find? (fun p => p.1 == v) with
  | some (_, some n) => n
  | _ => v

/-- Rewire every operand of one operation (`replace_all_uses_with` seen
from the consumer side); identity and results are untouched. -/
def rewireOp (olds : List Val) (news : List (Option Val)) (o : Op) : Op :=
  { o with operands := o.operands.map (rewireVal olds news) }

/-- `op.replace_all_uses_with(new_outs)` over a whole block. -/
def replaceUses (b : Blk) (olds : List Val) (news : List (Option Val)) : Blk :=
  b.map (rewireOp olds news)

/-- `block.move_op(block.ops[i], dest)`: remove the operation at index `i`
and reinsert it at index `dest`.  Out-of-range `i` leaves the block
unchanged (unreachable in the source, which always passes a live index). -/
def moveOp (b : Blk) (i dest : Nat) : Blk :=
  match b[i]? with
  | none => b
  | some o =>
    let b1 := b.take i ++ b.drop (i + 1)
    b1.take dest ++ o :: b1.drop dest

/-- The relocation loop of `_decomp_bwd_with_vjp` / `_decomp_bwd_without_vjp`:
`for i in range(before, after): block.move_op(block.ops[i], insert_idx);
insert_idx += 1`, with `count = after - before`. -/
def moveOps (b : Blk) (i dest : Nat) : Nat → Blk
  | 0 => b
  | n + 1 => moveOps (moveOp b i dest) (i + 1) (dest + 1) n

/-- Insert a list of operations immediately before the operation with
identity `k` (models building at the insertion point set by
`pir.set_insertion_point`). -/
def insertBeforeOid (b : Blk) (k : Nat) (newOps : List Op) : Blk :=
  match b.findIdx? (fun o => o.oid == k) with
  | some i => b.take i ++ newOps ++ b.drop i
  | none => b ++ newOps

/-! ## `_check_op_results` (decomp.py lines 91-144)

The validator.  `orig_vars`/`dst_vars` (the observed-variable table) are
threaded as an optional pair: `orig_vars : List (Val × Nat)` maps an
original value to its index in `src_vars`, `dst_vars : List (Option Val)`
is the replacement table updated in place. -/

abbrev VarTable := List (Val × Nat) × List (Option Val)

/-- Update of the observed-variable table performed for a checked pair. -/
def varTableUpdate (vt : Option VarTable) (origOut newOut : Val) : Option VarTable :=
  match vt with
  | none => none
  | some (origVars, dstVars) =>
    match (origVars.find? (fun p => p.1 == origOut)).map (·.2) with
    | some idx => some (origVars, dstVars.set idx (some newOut))
    | none => some (origVars, dstVars)

/-- The pairwise loop of `_check_op_results`.  The source's `return` at the
end of the loop body sits at loop-body indentation, so the loop exits as
soon as it reaches a pair whose original output is not `None`. -/
def checkPairsLoop (opName : String) (opsContainNone : List String)
    (vt : Option VarTable) :
    List (Option Val × Option Val) → Except Err (Option VarTable)
  | [] => .ok vt
  | (origOut, newOut) :: rest =>
    if (origOut.isNone || newOut.isNone) && !(opsContainNone.contains opName) then
      .error .unexpectedNone
    else
      match origOut with
      | none => checkPairsLoop opName opsContainNone vt rest
      | some o =>
        match newOut with
        | some n =>
          let vt1 := varTableUpdate vt o n
          if o.dtype != n.dtype then .error .dtypeMismatch
          else if n.shape.contains (-1) then .error .shapeUnresolved
          else if o.shape != n.shape then .error .shapeMismatch
          else .ok vt1
        | none => .ok vt

/-- `_check_op_results(op_name, orig_outs, new_outs, orig_vars, dst_vars)`.
`opsContainNone` models the exception list `core.ops_contain_none`. -/
def check_op_results (opName : String) (opsContainNone : List String)
    (origOuts newOuts : List (Option Val)) (vt : Option VarTable) :
    Except Err (Option VarTable) :=
  if origOuts.length != newOuts.length then .error .countMismatch
  else checkPairsLoop opName opsContainNone vt (origOuts.zip newOuts)

/-! ## `_build_tensor_tuple` (decomp.py lines 32-37) -/

/-- Universe of Python values a decomposition rule can return. -/
inductive PyVal where
  | opResult (v : Val)
  | seqVal (l : List (Option Val))
  | otherVal (descr : String)
deriving DecidableEq, Repr

/-- What `_build_tensor_tuple` hands back: a tuple of results, or the
`TypeError` object it constructs — and returns — for unsupported types. -/
inductive BuildRes where
  | tup (l : List (Option Val))
  | errObj (descr : String)
deriving DecidableEq, Repr

/-- `_build_tensor_tuple(xs)`.  The codomain is `Except Err BuildRes` to
make raising expressible; the function never uses the error channel — the
unsupported-type branch returns the constructed `TypeError` object. -/
def build_tensor_tuple : PyVal → Except Err BuildRes
  | .opResult v => .ok (.tup [some v])
  | .seqVal l => .ok (.tup l)
  | .otherVal d => .ok (.errObj ("Type " ++ d ++ " is not supported."))

/-! ## External collaborators

The spec (§1, §6) places the registered per-operator rules, the native
decomposition path (`has_decomp` / `call_decomp`), the vector-Jacobian
product (`core.call_vjp`) and reverse-mode differentiation
(`ir_backward.grad`) outside the core: they are consumed as black boxes.
They are bundled into an oracle record; the embedded functions consume the
oracle outputs exactly where `decomp.py` consumes the callees' returns. -/

structure Oracles where
  /-- `register.get_decomp_rule(name) is not None`. -/
  hasRule : String → Bool
  /-- Operations a registered rule builds at the insertion point. -/
  ruleNewOps : Op → List Op
  /-- The rule invocation's return value, fed to `_build_tensor_tuple`. -/
  ruleRet : Op → PyVal
  /-- `has_decomp(op)`. -/
  hasSink : Op → Bool
  /-- Operations `call_decomp` builds at the insertion point. -/
  sinkNewOps : Op → List Op
  /-- `call_decomp(op)`: one list per original result. -/
  callDecomp : Op → List (List (Option Val))
  /-- Operations `core.call_vjp(fwd_op, ...)` appends to the block. -/
  vjpNewOps : Op → Op → List Op
  /-- `core.call_vjp`'s return value, one entry per backward-op result
  slot; `none` models an inner `[None]`. -/
  vjpRet : Op → Op → List (Option Val)
  /-- Operations `ir_backward.grad` appends to the block. -/
  gradNewOps : Op → List Op
  /-- `ir_backward.grad`'s return values. -/
  gradRet : Op → List Val
  /-- `core.ops_contain_none`. -/
  opsContainNone : List String
  /-- `decomp_ops_contain_unused_output`. -/
  unusedOutput : List (String × List Nat)

/-! ## `_analyse_decomp_results` (decomp.py lines 40-55)

`orig_outs` comes from `op.results()`, so each entry is an `OpResult` and
the non-`OpResult` branch of the source is unreachable here. -/

def analyseLoop (unused : List (String × List Nat)) (opName : String) :
    List (Nat × List (Option Val)) → Except Err (List (Option Val))
  | [] => .ok []
  | (idx, value) :: rest =>
    let unusedIdxs := (unused.find? (fun p => p.1 == opName)).map (·.2)
    let slotOk : Except Err (Option Val) :=
      match unusedIdxs with
      | some idxs =>
        if idxs.contains idx then
          match value with
          | none :: _ => .ok none
          | _ => .error (.assertFail "analyse: expected None slot")
        else
          match value with
          | [some v] => .ok (some v)
          | _ => .error (.assertFail "analyse: expected a single OpResult")
      | none =>
        match value with
        | [some v] => .ok (some v)
        | _ => .error (.assertFail "analyse: expected a single OpResult")
    match slotOk with
    | .error e => .error e
    | .ok r =>
      match analyseLoop unused opName rest with
      | .error e => .error e
      | .ok rs => .ok (r :: rs)

/-- `_analyse_decomp_results(orig_outs, decomp_outs, op)`. -/
def analyse_decomp_results (unused : List (String × List Nat))
    (origOuts : List Val) (decompOuts : List (List (Option Val))) (opName : String) :
    Except Err (List (Option Val)) :=
  if origOuts.length != decompOuts.length then .error (.assertFail "analyse: length")
  else analyseLoop unused opName decompOuts.enum

/-! ## `_decompose_subgraph` (decomp.py lines 234-311) and `decompose` -/

/-- The use-rewiring step of the subgraph loop (decomp.py lines 280-291).
For an operator on the unused-output list, each result slot not marked
unused is rewired individually; otherwise `op.replace_all_uses_with` is
called with the full list.  (The source's inner `if op.name() in ...`
inside the `else` branch is dead — its guard just failed — and collapses
to the plain `replace_all_uses_with` call.) -/
def rewireResults (unused : List (String × List Nat)) (b : Blk) (op : Op)
    (newOuts : List (Option Val)) : Blk :=
  match (unused.find? (fun p => p.1 == op.name)).map (·.2) with
  | some idxs =>
    (List.range op.results.length).foldl
      (fun bb idx =>
        if idxs.contains idx then bb
        else
          match op.results[idx]?, newOuts[idx]? with
          | some o, some n => replaceUses bb [o] [n]
          | _, _ => bb)
      b
  | none => replaceUses b op.results newOuts

/-- The combine-helper cleanup (decomp.py lines 294-302): the pending
`builtin.combine` predecessor is removed unless one of its results
`has_one_use()`. -/
def cleanupCombine (b : Blk) (tempOp : Op) : Blk :=
  if tempOp.results.any (fun v => hasOneUse b v) then b
  else removeByOid b tempOp.oid

/-- The blacklist/whitelist eligibility filter of `decompose`
(decomp.py lines 193-202), as the predicate the selected lambda computes
on an op name. -/
def mkOpFilter (blacklist whitelist : List String) (n : String) : Bool :=
  if blacklist.length > 0 && whitelist.length > 0 then
    whitelist.contains n && !blacklist.contains n
  else if blacklist.length > 0 && whitelist.length == 0 then
    !blacklist.contains n
  else if blacklist.length == 0 && whitelist.length > 0 then
    whitelist.contains n
  else
    true

/-- `core.prim_config["composite_ops_record"].add(name)` (a Python set,
modelled as an insertion-ordered duplicate-free list). -/
def recordAdd (r : List String) (n : String) : List String :=
  if r.contains n then r else r ++ [n]

/-- State threaded through the subgraph loop: the block, the global
`composite_ops_record`, and the observed-variable table
(`orig_vars` / `dst_vars`). -/
structure SubState where
  blk : Blk
  record : List String
  varTable : VarTable
deriving Repr

/-- The `Block` arm of `_decompose_subgraph` (decomp.py lines 245-303):
iterate the snapshot `ops_list` of the block, mutating the real block.
`prevName` is `ops_list[idx - 1].name()` (irrelevant at `idx = 0`, where
`temp_op` is still `None`), `tempOp` the pending combine helper.  Python
exceptions abort the loop; the state mutated so far is kept alongside the
error, matching in-place mutation under exception propagation. -/
def subgraphLoop (O : Oracles) (flt : String → Bool) :
    List Op → Option String → Option Op → SubState → SubState × Option Err
  | [], _, _, s => (s, none)
  | op :: rest, prevName, tempOp, s =>
    let decomRule := O.hasRule op.name
    let hasSink := O.hasSink op
    let lower := (decomRule || hasSink) && flt op.name
    let tempOp1 := if op.name == "builtin.combine" then some op else tempOp
    if lower then
      let record1 := recordAdd s.record op.name
      let target :=
        match tempOp1 with
        | some t => if prevName == some "builtin.combine" then t.oid else op.oid
        | none => op.oid
      let newOps := if hasSink then O.sinkNewOps op else O.ruleNewOps op
      let blk1 := insertBeforeOid s.blk target newOps
      let origOuts : List (Option Val) := op.results.map some
      let newOutsE : Except Err (List (Option Val)) :=
        if hasSink then
          analyse_decomp_results O.unusedOutput op.results (O.callDecomp op) op.name
        else
          match build_tensor_tuple (O.ruleRet op) with
          | .ok (.tup l) => .ok l
          | .ok (.errObj _) => .error (.typeError "zip over non-iterable TypeError object")
          | .error e => .error e
      match newOutsE with
      | .error e => ({ blk := blk1, record := record1, varTable := s.varTable }, some e)
      | .ok newOuts =>
        match check_op_results op.name O.opsContainNone origOuts newOuts (some s.varTable) with
        | .error e => ({ blk := blk1, record := record1, varTable := s.varTable }, some e)
        | .ok vtOpt =>
          let vt1 := vtOpt.getD s.varTable
          let blk2 := rewireResults O.unusedOutput blk1 op newOuts
          let blk3 := removeByOid blk2 op.oid
          let blk4 :=
            match tempOp1 with
            | some t => cleanupCombine blk3 t
            | none => blk3
          subgraphLoop O flt rest (some op.name) none
            { blk := blk4, record := record1, varTable := vt1 }
    else
      subgraphLoop O flt rest (some op.name) tempOp1 s

/-- `decompose(program, src_vars, blacklist, whitelist)` (decomp.py lines
147-231), over the program's global block.  `globalBlacklist` models
`core.prim_config["forward_blacklist"]`, `record` the global
`composite_ops_record`; both the input and the resulting block and record
are explicit.  The container-type checks of the source are discharged by
typing.  `dst_vars_dct` assigns later duplicates the later index, hence
the reversed association list. -/
def decompose (O : Oracles) (fwdPrimEnabled : Bool) (globalBlacklist : List String)
    (blk : Blk) (record : List String) (srcVars : List Val)
    (blacklist whitelist : List String) :
    Blk × List String × Except Err (List Val) :=
  if !fwdPrimEnabled then (blk, record, .ok srcVars)
  else
    let blacklist1 := globalBlacklist ++ blacklist
    let flt := mkOpFilter blacklist1 whitelist
    let origVars : List (Val × Nat) := (srcVars.enum.map (fun p => (p.2, p.1))).reverse
    let s0 : SubState :=
      { blk := blk, record := record
        varTable := (origVars, List.replicate srcVars.length none) }
    match subgraphLoop O flt blk none none s0 with
    | (s1, some e) => (s1.blk, s1.record, .error e)
    | (s1, none) =>
      let dst := s1.varTable.2.enum.map (fun p =>
        match p.2 with
        | some v => v
        | none => srcVars.getD p.1 ⟨0, "", [], false⟩)
      (s1.blk, s1.record, .ok dst)

/-! ## `_decomp_fwd_op` (decomp.py lines 314-364) -/

/-- The `update_grad_var_to_var_map` loop of `_decomp_fwd_op` (lines
356-358): for every dict entry whose forward value is one of the original
outputs, redirect it to the replacement at the same index.  A `None`
replacement slot keeps the entry (the source would store `None`; such
slots belong to intentionally unused outputs that are never mapped). -/
def updateGvFwd (gv : GVMap) (origOuts : List Val) (newOuts : List (Option Val)) : GVMap :=
  gv.map (fun p =>
    match origOuts.findIdx? (fun o => o == p.2) with
    | some idx =>
      match newOuts[idx]? with
      | some (some n) => (p.1, n)
      | _ => p
    | none => p)

/-- `_decomp_fwd_op(block, fwd_op, grad_var_to_var)`.  Returns the new
block, the updated `grad_var_to_var`, and `(new_outputs, has_decomposed)`
or the propagated exception. -/
def decomp_fwd_op (O : Oracles) (fwdPrimEnabled : Bool)
    (blk : Blk) (gv : GVMap) (fwdOp : Op) :
    Blk × GVMap × Except Err (List (Option Val) × Bool) :=
  if !fwdPrimEnabled then
    (blk, gv, .error (.runtimeError "decompose forward requires prim forward enabled"))
  else
    let decomRule := O.hasRule fwdOp.name
    let hasSink := O.hasSink fwdOp
    if decomRule || hasSink then
      let origOuts := fwdOp.results
      let newOps := if hasSink then O.sinkNewOps fwdOp else O.ruleNewOps fwdOp
      let blk1 := insertBeforeOid blk fwdOp.oid newOps
      let newOutsE : Except Err (List (Option Val)) :=
        if hasSink then
          analyse_decomp_results O.unusedOutput origOuts (O.callDecomp fwdOp) fwdOp.name
        else
          match build_tensor_tuple (O.ruleRet fwdOp) with
          | .ok (.tup l) => .ok l
          | .ok (.errObj _) => .error (.typeError "zip over non-iterable TypeError object")
          | .error e => .error e
      match newOutsE with
      | .error e => (blk1, gv, .error e)
      | .ok newOuts =>
        match check_op_results fwdOp.name O.opsContainNone (origOuts.map some) newOuts none with
        | .error e => (blk1, gv, .error e)
        | .ok _ =>
          let gv1 := updateGvFwd gv origOuts newOuts
          let blk2 := replaceUses blk1 origOuts newOuts
          let blk3 := removeByOid blk2 fwdOp.oid
          (blk3, gv1, .ok (newOuts, true))
    else
      (blk, gv, .ok (fwdOp.results.map some, false))

/-! ## `_get_fwd_op` (decomp.py lines 569-579) and `_check_op` (582-608) -/

/-- The scan of `_get_fwd_op`: the first backward input whose declared
name is one of the output-gradient names and whose source is a key of
`grad_var_to_var` determines the forward value; its defining operation is
the candidate.  A hit stops the scan even when the block defines no such
operation. -/
def getFwdAux (blk : Blk) (gv : GVMap) (bwdOp : Op) :
    List (Nat × String) → Option Op
  | [] => none
  | (idx, nm) :: rest =>
    if ["out_grad", "Out_grad", "loss_grad"].contains nm then
      match bwdOp.operands[idx]? with
      | none => none
      | some outGrad =>
        match gvLookup gv outGrad with
        | some out => blk.find? (fun o => o.results.contains out)
        | none => getFwdAux blk gv bwdOp rest
    else getFwdAux blk gv bwdOp rest

/-- `_get_fwd_op(bwd_op, grad_var_to_var_map)`. -/
def get_fwd_op (blk : Blk) (gv : GVMap) (bwdOp : Op) : Option Op :=
  getFwdAux blk gv bwdOp bwdOp.inputNames.enum

/-- `_check_op(fwd_op, bwd_op)`: the backward/forward pairing check.
`operand.get_defining_op()` of a value no block operation defines is
modelled as `none` (never equal to `pd_op.full_int_array`). -/
def check_op (blk : Blk) (fwdOp : Option Op) (bwdOp : Op) : Except Err Bool :=
  match fwdOp with
  | none => .ok false
  | some f =>
    if f.name ++ "_grad" != bwdOp.name then .ok false
    else if bwdOp.inputNames.length != bwdOp.operands.length then
      .error (.assertFail "backward op names do not match backward op inputs")
    else
      let related :=
        ((bwdOp.inputNames.zip bwdOp.operands).filter
          (fun p => !hasSubstr "_grad" p.1)).map (·.2)
      .ok (related.all (fun v =>
        f.operands.contains v || f.results.contains v ||
          defOpName blk v == some "pd_op.full_int_array"))

/-! ## `_decomp_bwd_with_vjp` (decomp.py lines 367-479) -/

/-- `pir.fake_op_result()`: an uninitialized placeholder value.  Freshness
is not modelled; the pass never compares two fake results. -/
def fakeVal : Val := ⟨1000000007, "", [], false⟩

/-- One result slot of the decomposed backward op (decomp.py lines
454-459): the vjp value when present and initialized, a fake result
otherwise. -/
def vjpSlot : Option Val → Val
  | some v => if v.initialized then v else fakeVal
  | none => fakeVal

/-- The `update_grad_var_to_var_map` step of the backward decomposers
(lines 465-467 and 551-553): migrate each mapped original result to the
replacement in the same slot (`gv[res[idx]] = gv.pop(grad_input)`). -/
def migrateGv (gv : GVMap) (olds news : List Val) : GVMap :=
  (olds.zip news).foldl
    (fun acc p =>
      match gvLookup acc p.1 with
      | some v => gvSet (gvErase acc p.1) p.2 v
      | none => acc)
    gv

/-- `_decomp_bwd_with_vjp(block, fwd_op, bwd_op, grad_var_to_var)`.  The
argument marshalling of lines 388-435 only feeds `core.call_vjp` and is
absorbed into the oracle; everything from line 437 on is embedded.
Returns the new block, the updated map, and `(new_input_grads,
has_decomposed)` or the propagated exception. -/
def decomp_bwd_with_vjp (O : Oracles) (blk : Blk) (gv : GVMap) (fwdOp bwdOp : Op) :
    Blk × GVMap × Except Err (Option (List Val) × Bool) :=
  let bwdOpIdx := blk.findIdx (fun o => o.oid == bwdOp.oid)
  let beforeNum := blk.length
  let appended := O.vjpNewOps fwdOp bwdOp
  let newGradInputs := O.vjpRet fwdOp bwdOp
  let blk1 := blk ++ appended
  let afterNum := blk1.length
  let numAppended := afterNum - beforeNum
  if numAppended == 1 && (blk1.getLast?.map (·.name)) == some bwdOp.name then
    (blk1.dropLast, gv, .ok (none, false))
  else
    let res := newGradInputs.map vjpSlot
    if res.length != bwdOp.results.length then
      (blk1, gv, .error (.assertFail
        "results of original backward op do not match results of decomposed backward op"))
    else
      let gv1 := migrateGv gv bwdOp.results res
      let blk2 := moveOps blk1 beforeNum bwdOpIdx numAppended
      let blk3 := replaceUses blk2 bwdOp.results (res.map some)
      let blk4 := removeByOid blk3 bwdOp.oid
      (blk4, gv1, .ok (some res, true))

/-! ## `_decomp_bwd_without_vjp` (decomp.py lines 482-566) -/

/-- The result-slot assembly of lines 542-548: initialized original
results consume the next produced gradient, uninitialized slots get a
fake result.  Exhausting the produced gradients is a Python `IndexError`. -/
def assembleSlots (newGradInputs : List Val) :
    List Val → Nat → Except Err (List Val)
  | [], _ => .ok []
  | g :: rest, k =>
    if g.initialized then
      match newGradInputs[k]? with
      | none => .error (.valueError "IndexError: new_grad_inputs")
      | some v =>
        match assembleSlots newGradInputs rest (k + 1) with
        | .error e => .error e
        | .ok vs => .ok (v :: vs)
    else
      match assembleSlots newGradInputs rest k with
      | .error e => .error e
      | .ok vs => .ok (fakeVal :: vs)

/-- Keyed lookups of lines 525-532; a missing key is a Python `KeyError`. -/
def gvLookupAll (gv : GVMap) : List Val → Except Err (List Val)
  | [] => .ok []
  | v :: rest =>
    match gvLookup gv v with
    | none => .error (.valueError "KeyError: grad_var_to_var")
    | some w =>
      match gvLookupAll gv rest with
      | .error e => .error e
      | .ok ws => .ok (w :: ws)

/-- `_decomp_bwd_without_vjp(block, bwd_op, grad_var_to_var, fwd_inputs,
fwd_outputs_after_decompose)`.  `ir_backward.grad` is consumed through the
oracle: it appends `O.gradNewOps bwdOp` to the block and returns
`O.gradRet bwdOp`. -/
def decomp_bwd_without_vjp (O : Oracles) (blk : Blk) (gv : GVMap) (bwdOp : Op)
    (fwdInputs : List Val) (fwdOutputsAfterDecompose : Option (List (Option Val))) :
    Blk × GVMap × Except Err (Option (List Val) × Bool) :=
  match fwdOutputsAfterDecompose with
  | none =>
    (blk, gv, .error (.runtimeError
      "To decompose backward op, please decompose forward op firstly"))
  | some fwdOuts =>
    let bwdInputs := bwdOp.operands
    let gradInputs := bwdOp.results
    let gradOutputs := bwdInputs.filter
      (fun v => !(fwdInputs.contains v || fwdOuts.contains (some v)))
    match gvLookupAll gv gradOutputs with
    | .error e => (blk, gv, .error e)
    | .ok _fwdOutputsOfInterest =>
      match gvLookupAll gv (gradInputs.filter (·.initialized)) with
      | .error e => (blk, gv, .error e)
      | .ok _fwdInputsOfInterest =>
        let bwdOpIdx := blk.findIdx (fun o => o.oid == bwdOp.oid)
        let beforeNum := blk.length
        let appended := O.gradNewOps bwdOp
        let newGradInputs := O.gradRet bwdOp
        let blk1 := blk ++ appended
        let numAppended := blk1.length - beforeNum
        match assembleSlots newGradInputs gradInputs 0 with
        | .error e => (blk1, gv, .error e)
        | .ok res =>
          let gv1 := migrateGv gv bwdOp.results res
          let blk2 := moveOps blk1 beforeNum bwdOpIdx numAppended
          let blk3 := replaceUses blk2 bwdOp.results (res.map some)
          let blk4 := removeByOid blk3 bwdOp.oid
          (blk4, gv1, .ok (some res, true))

/-! ## `_decomp_bwd_op` (decomp.py lines 611-680) -/

/-- `_decomp_bwd_op(block, bwd_op, grad_var_to_var)`: locate the forward
op, run the pairing check, try the vjp path, fall back to forward
decomposition plus `_decomp_bwd_without_vjp`. -/
def decomp_bwd_op (O : Oracles) (fwdPrimEnabled bwdPrimEnabled : Bool)
    (blk : Blk) (gv : GVMap) (bwdOp : Op) :
    Blk × GVMap × Except Err (Option (List Val) × Bool) :=
  if !bwdPrimEnabled then
    (blk, gv, .error (.runtimeError
      "To decompose backward op, please set prim backward enabled firstly"))
  else
    let fwdOpOpt := get_fwd_op blk gv bwdOp
    match check_op blk fwdOpOpt bwdOp with
    | .error e => (blk, gv, .error e)
    | .ok false => (blk, gv, .ok (none, false))
    | .ok true =>
      match fwdOpOpt with
      | none => (blk, gv, .ok (none, false))
      | some fwdOp =>
        let r1 := decomp_bwd_with_vjp O blk gv fwdOp bwdOp
        match r1 with
        | (blk1, gv1, .error e) => (blk1, gv1, .error e)
        | (blk1, gv1, .ok (someRes, true)) => (blk1, gv1, .ok (someRes, true))
        | (blk1, gv1, .ok (_, false)) =>
          let fwdInputs := fwdOp.operands
          match decomp_fwd_op O fwdPrimEnabled blk1 gv1 fwdOp with
          | (blk2, gv2, .error e) => (blk2, gv2, .error e)
          | (blk2, gv2, .ok (newFwdOutputs, true)) =>
            decomp_bwd_without_vjp O blk2 gv2 bwdOp fwdInputs (some newFwdOutputs)
          | (blk2, gv2, .ok (_, false)) => (blk2, gv2, .ok (none, false))

/-! ## `decompose_pir_program` (decomp.py lines 683-805) -/

/-- The three process-wide flags the driver saves, force-enables and
restores: `core._is_fwd_prim_enabled`, `core._is_bwd_prim_enabled`,
`FLAGS_enable_pir_api`. -/
structure Flags where
  fwdPrim : Bool
  bwdPrim : Bool
  pirApi : Bool
deriving DecidableEq, Repr

/-- `_get_bwd_ops_name(pir_program)` (lines 694-702): distinct names of
global-block operations ending in `_grad` or `_grad_`, in first-occurrence
order. -/
def get_bwd_ops_name : Blk → List String → List String
  | [], acc => acc
  | op :: rest, acc =>
    if (strEndsWith op.name "_grad" || strEndsWith op.name "_grad_")
        && !acc.contains op.name then
      get_bwd_ops_name rest (acc ++ [op.name])
    else
      get_bwd_ops_name rest acc

/-- External (pre-PIR) variables are keyed by name. -/
abbrev ExtVar := String

/-- `param_mapping`: each external name maps to one or two PIR values. -/
abbrev ParamMapping := List (ExtVar × List Val)

def pmLookup (pm : ParamMapping) (k : ExtVar) : Option (List Val) :=
  (pm.find? (fun p => p.1 == k)).map (·.2)

/-- The one-side disambiguation of `_translate_gradvartovar_to_pir`
(lines 718-729 and 731-742): a single value is taken as is; of two
values the second is preferred when a `builtin.slice` op produces it;
otherwise the first is taken only when the name of the op producing the
last value ends in `_` (an in-place variant) — else no candidate remains
and the subsequent assertion fires. -/
def translateSide (blk : Blk) (vals : List Val) : List Val :=
  if vals.length == 1 then
    match vals with
    | v :: _ => [v]
    | [] => []
  else if vals.length == 2
      && ((vals[1]?.bind (defOpName blk)) == some "builtin.slice") then
    match vals[1]? with
    | some v => [v]
    | none => []
  else
    match vals.getLast? with
    | some lastV =>
      if strEndsWith ((defOpName blk lastV).getD "") "_" then
        match vals with
        | v :: _ => [v]
        | [] => []
      else []
    | none => []

/-- `_translate_gradvartovar_to_pir(param_mapping, grad_var_to_var)`
(lines 704-748): build the PIR-native value-to-value map; entries whose
external names are not both in `param_mapping` are skipped; an ambiguous
entry that neither heuristic resolves trips the assertion. -/
def translate_gradvartovar (blk : Blk) (pm : ParamMapping) :
    List (ExtVar × ExtVar) → Except Err GVMap
  | [] => .ok []
  | (gradVar, var) :: rest =>
    match pmLookup pm gradVar, pmLookup pm var with
    | some gvs, some vs =>
      let pair : Except Err (Val × Val) :=
        if gvs.length == 1 && vs.length == 1 then
          match gvs, vs with
          | g :: _, v :: _ => .ok (g, v)
          | _, _ => .error (.assertFail "translate pir_grad_var_to_var error")
        else
          match translateSide blk gvs, translateSide blk vs with
          | [g], [v] => .ok (g, v)
          | _, _ => .error (.assertFail "translate pir_grad_var_to_var error")
      match pair with
      | .error e => .error e
      | .ok (g, v) =>
        match translate_gradvartovar blk pm rest with
        | .error e => .error e
        | .ok m => .ok ((g, v) :: m)
    | _, _ => translate_gradvartovar blk pm rest

/-- The aggregated report the driver logs (lines 786-797). -/
structure Report where
  numDecomposed : Nat
  numUndecomposed : Nat
  decomposedNames : List String
  undecomposedNames : List String
deriving DecidableEq, Repr

/-- The per-op loop of the driver (lines 770-784): iterate the snapshot of
the global block's ops; operations whose name is a backward-op name are
decomposed; failures update the undecomposed tally; exceptions abort the
loop, keeping the state mutated so far. -/
def driverLoop (O : Oracles) (bwdOps : List String) :
    List Op → Blk → GVMap → Report → (Blk × GVMap × Report × Option Err)
  | [], blk, gv, rep => (blk, gv, rep, none)
  | op :: rest, blk, gv, rep =>
    if bwdOps.contains op.name then
      match decomp_bwd_op O true true blk gv op with
      | (blk1, gv1, .error e) => (blk1, gv1, rep, some e)
      | (blk1, gv1, .ok (_, hasDecomposed)) =>
        let rep1 :=
          if hasDecomposed then
            { rep with
              numDecomposed := rep.numDecomposed + 1
              decomposedNames := recordAdd rep.decomposedNames op.name }
          else
            { rep with
              numUndecomposed := rep.numUndecomposed + 1
              undecomposedNames := recordAdd rep.undecomposedNames op.name }
        driverLoop O bwdOps rest blk1 gv1 rep1
    else
      driverLoop O bwdOps rest blk gv rep

/-- Driver state: the process-wide flags and the program's global block. -/
structure DriverState where
  flags : Flags
  blk : Blk
deriving DecidableEq, Repr

/-- The `program_guard` body of `decompose_pir_program` (lines 759-797):
translate the external variable mapping, then run the per-op loop over the
snapshot of the global block.  The body never reads the saved flag state
(the driver has just force-enabled all flags), so it is factored over the
block alone; it yields the mutated block and either the report or the
propagated exception. -/
def driverBody (O : Oracles) (blk : Blk) (pm : ParamMapping)
    (gradVarToVar : List (ExtVar × ExtVar)) : Blk × Except Err Report :=
  match translate_gradvartovar blk pm gradVarToVar with
  | .error e => (blk, .error e)
  | .ok pirGv =>
    match driverLoop O (get_bwd_ops_name blk []) blk blk pirGv ⟨0, 0, [], []⟩ with
    | (blk1, _, _, some e) => (blk1, .error e)
    | (blk1, _, rep, none) => (blk1, .ok rep)

/-- `decompose_pir_program(pir_program, param_mapping, grad_var_to_var)`
(lines 750-805).  Save the flags, force-enable all three, run the body;
the saved flags are restored at the end of the body (lines 799-804) —
there is no `try`/`finally`, so an exception propagating out of the body
leaves the flags force-enabled.  The report that the source logs is
returned. -/
def decompose_pir_program (O : Oracles) (s : DriverState)
    (pm : ParamMapping) (gradVarToVar : List (ExtVar × ExtVar)) :
    DriverState × Except Err Report :=
  let saved := s.flags
  match driverBody O s.blk pm gradVarToVar with
  | (blk1, .error e) => ({ flags := ⟨true, true, true⟩, blk := blk1 }, .error e)
  | (blk1, .ok rep) => ({ flags := saved, blk := blk1 }, .ok rep)

/-! ## The registered `mean` rule (rules.py lines 21-38)

Rules build primitive operations; the build calls are embedded as a small
expression tree so that the structure a rule produces is observable.  The
shape/dtype semantics of the primitive ops `sum`, `fill_constant` and
`divide` are those of the framework's primitive operators (external
collaborators per spec §1): `sum` drops the reduced axes (keeps them as 1
under `keepdim`) and preserves the dtype, `fill_constant` makes a tensor
of the given shape/value/dtype, division of a tensor by a 0-d tensor
keeps the tensor's shape and dtype. -/

inductive PExpr where
  | input (shape : List Int) (dtype : String)
  | sumE (x : PExpr) (axes : List Int) (keepdim : Bool)
  | fillConstant (shape : List Int) (value : Int) (dtype : String)
  | divE (x y : PExpr)
deriving DecidableEq, Repr

/-- Python indexing `l[a]` with negative-index wraparound (out of range is
an `IndexError` in the source; the rule is only invoked with the
operator's declared axes, which are in range). -/
def pyIndex (l : List Int) (a : Int) : Int :=
  if a < 0 then l.getD (l.length - (-a).toNat) 0 else l.getD a.toNat 0

/-- Axis positions named by a (possibly negative) axis list, normalized. -/
def normAxes (rank : Nat) (axes : List Int) : List Nat :=
  axes.map (fun a => if a < 0 then rank - (-a).toNat else a.toNat)

/-- Result shape of the primitive `sum` over `axes`. -/
def reduceShape (shape : List Int) (axes : List Int) (keepdim : Bool) : List Int :=
  let norm := normAxes shape.length axes
  if keepdim then
    shape.enum.map (fun p => if norm.contains p.1 then 1 else p.2)
  else
    (shape.enum.filter (fun p => !norm.contains p.1)).map (·.2)

def shapeOf : PExpr → List Int
  | .input shape _ => shape
  | .sumE x axes keepdim => reduceShape (shapeOf x) axes keepdim
  | .fillConstant shape _ _ => shape
  | .divE x y => if (shapeOf y).isEmpty then shapeOf x else
      if (shapeOf x).isEmpty then shapeOf y else shapeOf x

def dtypeOf : PExpr → String
  | .input _ dtype => dtype
  | .sumE x _ _ => dtypeOf x
  | .fillConstant _ _ dtype => dtype
  | .divE x _ => dtypeOf x

/-- The `axis` argument of `pd_op.mean`: `None`, a single int, or a list. -/
inductive MeanAxis where
  | noneAxis
  | intAxis (i : Int)
  | listAxis (l : List Int)
deriving DecidableEq, Repr

/-- The registered composite rule `mean(x, axis, keepdim)` of rules.py:
normalize `axis`, sum over the axes, and divide by a `fill_constant`
scalar holding the product of the reduced dimension sizes. -/
def meanRule (x : PExpr) (axis : MeanAxis) (keepdim : Bool) : PExpr :=
  let xShape := shapeOf x
  let axis1 : MeanAxis :=
    match axis with
    | .noneAxis => .listAxis ((List.range xShape.length).map Int.ofNat)
    | .listAxis [] => .listAxis ((List.range xShape.length).map Int.ofNat)
    | a => a
  let axes : List Int :=
    match axis1 with
    | .intAxis i => [i]
    | .listAxis l => l
    | .noneAxis => []
  let sumX := PExpr.sumE x axes keepdim
  let valueToFill := axes.foldl (fun acc a => acc * pyIndex xShape a) 1
  let norm := PExpr.fillConstant [] valueToFill (dtypeOf sumX)
  PExpr.divE sumX norm

/-- The value an expression's op result presents to the validator. -/
def exprResultVal (e : PExpr) (id : Nat) : Val :=
  ⟨id, dtypeOf e, shapeOf e, true⟩

/-! ## The claim-side pairing predicate (spec §4.5 / §8)

Stated from the spec's words, to be compared with `check_op`. -/

/-- The pairing condition as the claim states it: the forward op exists,
its name plus `_grad` equals the gradient op's name, and every gradient-op
input whose declared input name does not contain `_grad` is one of the
forward op's operands, one of its results, or is produced by a
`pd_op.full_int_array` op. -/
def pairingOkProp (blk : Blk) (f bwdOp : Op) : Prop :=
  f.name ++ "_grad" = bwdOp.name ∧
    ∀ p ∈ bwdOp.inputNames.zip bwdOp.operands, hasSubstr "_grad" p.1 = false →
      (p.2 ∈ f.operands ∨ p.2 ∈ f.results ∨
        defOpName blk p.2 = some "pd_op.full_int_array")

/-! ## Concrete fixtures

A two-op forward/backward program (`tanh` and `tanh_grad`), oracles for
the no-rule, undo-shaped-vjp and successful-vjp situations, a combine
helper with two surviving consumers, and a `param_mapping` that defeats
both disambiguation heuristics of the translation step. -/

def vX : Val := ⟨0, "float32", [2], true⟩
def vOut : Val := ⟨1, "float32", [2], true⟩
def vOutGrad : Val := ⟨2, "float32", [2], true⟩
def vXGrad : Val := ⟨3, "float32", [2], true⟩
def vNew1 : Val := ⟨4, "float32", [2], true⟩
def vNewGrad : Val := ⟨5, "float32", [2], true⟩

def tanhOp : Op := ⟨10, "pd_op.tanh", ["x"], ["out"], [vX], [vOut]⟩
def tanhGradOp : Op :=
  ⟨11, "pd_op.tanh_grad", ["out", "out_grad"], ["x_grad"], [vOut, vOutGrad], [vXGrad]⟩
def blkFB : Blk := [tanhOp, tanhGradOp]
def gvFB : GVMap := [(vOutGrad, vOut)]
def pmFB : ParamMapping := [("og", [vOutGrad]), ("o", [vOut])]
def gvvFB : List (ExtVar × ExtVar) := [("og", "o")]

/-- A do-nothing oracle: no rules, no native decomposition, empty callee
returns. -/
def O0 : Oracles where
  hasRule := fun _ => false
  ruleNewOps := fun _ => []
  ruleRet := fun _ => .seqVal []
  hasSink := fun _ => false
  sinkNewOps := fun _ => []
  callDecomp := fun _ => []
  vjpNewOps := fun _ _ => []
  vjpRet := fun _ _ => []
  gradNewOps := fun _ => []
  gradRet := fun _ => []
  opsContainNone := []
  unusedOutput := []

/-- An oracle whose vjp appends a single clone of the backward op: the
`call_vjp` behaviour of a forward op without composite vjp rules. -/
def OUndo : Oracles :=
  { O0 with vjpNewOps := fun _ b => [⟨40, b.name, [], [], [], []⟩] }

def vjpOpA : Op := ⟨20, "pd_op.scale", ["x"], ["out"], [vOutGrad], [vNew1]⟩
def vjpOpB : Op :=
  ⟨21, "pd_op.multiply", ["x", "y"], ["out"], [vNew1, vOut], [vNewGrad]⟩

/-- An oracle whose vjp succeeds, appending two primitive ops and
returning one initialized gradient. -/
def OVjp : Oracles :=
  { O0 with
    vjpNewOps := fun _ _ => [vjpOpA, vjpOpB]
    vjpRet := fun _ _ => [some vNewGrad] }

def rComb : Val := ⟨6, "float32", [2, 2], true⟩
def combineOp : Op := ⟨30, "builtin.combine", ["x"], ["out"], [vX, vOut], [rComb]⟩
def consumerA : Op :=
  ⟨31, "pd_op.concat", ["x"], ["out"], [rComb], [⟨7, "float32", [4, 2], true⟩]⟩
def consumerB : Op :=
  ⟨32, "pd_op.stack", ["x"], ["out"], [rComb], [⟨8, "float32", [2, 2, 2], true⟩]⟩
def blkComb : Blk := [combineOp, consumerA, consumerB]

def wA : Val := ⟨100, "float32", [2], true⟩
def wB : Val := ⟨101, "float32", [2], true⟩
def wC : Val := ⟨102, "float32", [2], true⟩
/-- Two values for the grad side, neither produced by `builtin.slice` nor
by an in-place op: both disambiguation heuristics fail. -/
def pmBad : ParamMapping := [("og", [wA, wB]), ("o", [wC])]

/-! # Theorems -/

/-- Claim C1: the spec says the result validator checks every
(original, replacement) result pair and aborts on any pair's dtype or
shape violation.  The code's `return` sits inside the pairwise loop, so
validation stops at the first pair whose original output is not `None`:
here a two-output op whose second replacement has a different dtype
passes the validator. -/
theorem claim_C1_second_pair_unchecked :
    check_op_results "pd_op.split" []
      [some ⟨1, "float32", [2], true⟩, some ⟨2, "float32", [2], true⟩]
      [some ⟨3, "float32", [2], true⟩, some ⟨4, "float64", [2], true⟩]
      none = .ok none := by decide

/-- Claim C10: `_build_tensor_tuple` applied to a value that is neither an
`OpResult` nor a sequence does not raise — it returns the constructed
`TypeError` object through the ordinary return channel. -/
theorem claim_C10_returns_error_object (d : String) :
    build_tensor_tuple (.otherVal d)
      = .ok (.errObj ("Type " ++ d ++ " is not supported.")) := rfl

/-- Claim C9: the registered `mean` rule on an input of shape `[4, 5]`,
dtype `d`, `axis = [1]`, `keepdim = false` produces the sum over axis 1
divided by a scalar constant of value `5` (the product of the reduced
dimension sizes); the result has shape `[4]` and dtype `d`, and the
validator's count/dtype/shape checks pass on the pair. -/
theorem claim_C9_mean_rule (d : String) :
    meanRule (.input [4, 5] d) (.listAxis [1]) false
      = .divE (.sumE (.input [4, 5] d) [1] false) (.fillConstant [] 5 d)
    ∧ shapeOf (meanRule (.input [4, 5] d) (.listAxis [1]) false) = [4]
    ∧ dtypeOf (meanRule (.input [4, 5] d) (.listAxis [1]) false) = d
    ∧ check_op_results "pd_op.mean" []
        [some ⟨0, d, [4], true⟩]
        [some (exprResultVal (meanRule (.input [4, 5] d) (.listAxis [1]) false) 1)]
        none = .ok none := by
  refine ⟨rfl, rfl, rfl, ?_⟩
  have h1 : exprResultVal (meanRule (.input [4, 5] d) (.listAxis [1]) false) 1
      = ⟨1, d, [4], true⟩ := rfl
  rw [h1]
  simp [check_op_results, checkPairsLoop, varTableUpdate]

/-- Claim C6, counterexample: a pending `builtin.combine` helper both of
whose surviving consumers use its result (two remaining uses) is removed
by the cleanup, although the claim says a helper still feeding a
surviving consumer is kept. -/
theorem claim_C6_counterexample :
    useCount blkComb rComb = 2
    ∧ cleanupCombine blkComb combineOp = [consumerA, consumerB] := by decide

/-- Claim C6 (amended): the combine-helper cleanup removes the pending
helper iff none of its results has exactly one remaining use.  A helper
whose results are all unused (feeding only removed consumers) is removed;
one with exactly one surviving use on some result is kept; one whose
every result has zero — or at least two — remaining uses is removed even
when consumers survive. -/
theorem claim_C6_amended :
    (∀ (b : Blk) (t : Op), (∀ v ∈ t.results, useCount b v = 0) →
        cleanupCombine b t = removeByOid b t.oid)
    ∧ (∀ (b : Blk) (t : Op), (∃ v ∈ t.results, useCount b v = 1) →
        cleanupCombine b t = b)
    ∧ (∀ (b : Blk) (t : Op), (∀ v ∈ t.results, useCount b v ≠ 1) →
        cleanupCombine b t = removeByOid b t.oid) := by
  refine ⟨?_, ?_, ?_⟩
  · intro b t h
    have ha : t.results.any (fun v => hasOneUse b v) = false := by
      simp only [List.any_eq_false, hasOneUse]
      intro v hv
      simp [h v hv]
    simp [cleanupCombine, ha]
  · rintro b t ⟨v, hv, hc⟩
    have ha : t.results.any (fun v => hasOneUse b v) = true := by
      simp only [List.any_eq_true]
      exact ⟨v, hv, by simp [hasOneUse, hc]⟩
    simp [cleanupCombine, ha]
  · intro b t h
    have ha : t.results.any (fun v => hasOneUse b v) = false := by
      simp only [List.any_eq_false, hasOneUse]
      intro v hv
      simpa using h v hv
    simp [cleanupCombine, ha]

/-- Claim C6, witness for the amended statement: the three cases at
concrete blocks — zero uses (removed), one surviving use (kept), two
surviving uses (removed). -/
theorem claim_C6_witness :
    cleanupCombine [] combineOp = removeByOid [] combineOp.oid
    ∧ cleanupCombine [combineOp, consumerA] combineOp = [combineOp, consumerA]
    ∧ cleanupCombine blkComb combineOp = removeByOid blkComb combineOp.oid :=
  ⟨claim_C6_amended.1 [] combineOp (by decide),
   claim_C6_amended.2.1 [combineOp, consumerA] combineOp ⟨rComb, by decide, by decide⟩,
   claim_C6_amended.2.2 blkComb combineOp (by decide)⟩

/-- Claim C5, counterexample: with all three flags initially disabled,
a `param_mapping` entry that defeats both disambiguation heuristics makes
the translation step raise; the exception propagates and the flags are
left force-enabled — `(true, true, true)` instead of the saved
`(false, false, false)`. -/
theorem claim_C5_counterexample :
    decompose_pir_program O0 ⟨⟨false, false, false⟩, []⟩ pmBad [("og", "o")]
      = (⟨⟨true, true, true⟩, []⟩,
         .error (.assertFail "translate pir_grad_var_to_var error")) := by decide

/-- Claim C8, counterexample: `decompose_pir_program` does not check the
backward-prim flag — with the flag disabled it still force-enables
decomposition and rewrites the program: the `tanh_grad` op is replaced by
the two vjp-produced primitive ops. -/
theorem claim_C8_counterexample :
    (decompose_pir_program OVjp ⟨⟨false, false, false⟩, blkFB⟩ pmFB gvvFB).1.blk
        = [tanhOp, vjpOpA, vjpOpB]
    ∧ [tanhOp, vjpOpA, vjpOpB] ≠ blkFB := by decide

/-- Claim C2, counterexample: the claim's "if" direction fails — here the
forward op is located, the pairing check passes, yet the gradient op is
not rewritten: the vjp appends a single clone of the gradient op (no
composite rule), the forward op has no decomposition rule either, and
`_decomp_bwd_op` returns not-decomposed with the graph unchanged. -/
theorem claim_C2_counterexample :
    get_fwd_op blkFB gvFB tanhGradOp = some tanhOp
    ∧ check_op blkFB (some tanhOp) tanhGradOp = .ok true
    ∧ decomp_bwd_op OUndo true true blkFB gvFB tanhGradOp
        = (blkFB, gvFB, .ok (none, false)) := by decide

/-- Claim C2 (amended): the pairing check is exactly as the claim
describes it — the forward op exists, its name plus `_grad` equals the
gradient op's name, and every gradient-op input whose declared name does
not contain `_grad` is a forward operand, a forward result, or produced
by `pd_op.full_int_array`; a gradient op is rewritten **only if** the
check passes (a passing check does not guarantee a rewrite); and when the
check fails, `_decomp_bwd_op` returns not-decomposed without mutating the
graph or the variable map. -/
theorem claim_C2_amended :
    (∀ (blk : Blk) (f bwdOp : Op),
        bwdOp.inputNames.length = bwdOp.operands.length →
        (check_op blk (some f) bwdOp = .ok true ↔ pairingOkProp blk f bwdOp))
    ∧ (∀ (O : Oracles) (fp : Bool) (blk : Blk) (gv : GVMap) (bwdOp : Op),
        check_op blk (get_fwd_op blk gv bwdOp) bwdOp = .ok false →
        decomp_bwd_op O fp true blk gv bwdOp = (blk, gv, .ok (none, false)))
    ∧ (∀ (O : Oracles) (fp : Bool) (blk : Blk) (gv : GVMap) (bwdOp : Op)
        (blk1 : Blk) (gv1 : GVMap) (res : List Val),
        decomp_bwd_op O fp true blk gv bwdOp = (blk1, gv1, .ok (some res, true)) →
        check_op blk (get_fwd_op blk gv bwdOp) bwdOp = .ok true) := by
  refine ⟨?_, ?_, ?_⟩
  · intro blk f bwdOp hlen
    by_cases hname : f.name ++ "_grad" = bwdOp.name
    · rw [check_op]
      rw [if_neg (by simp [hname]), if_neg (by simp [hlen])]
      simp only [Except.ok.injEq, List.all_eq_true, List.mem_map, List.mem_filter,
        pairingOkProp]
      constructor
      · intro h
        refine ⟨hname, ?_⟩
        intro p hp hsub
        have := h p.2 ⟨p, ⟨hp, by simp [hsub]⟩, rfl⟩
        simpa [or_assoc] using this
      · rintro ⟨-, h2⟩
        rintro v ⟨p, ⟨hp, hq⟩, rfl⟩
        have hs : hasSubstr "_grad" p.1 = false := by
          revert hq; cases hasSubstr "_grad" p.1 <;> simp
        have := h2 p hp hs
        simpa [or_assoc] using this
    · rw [check_op]
      rw [if_pos (by simp [hname])]
      simp [pairingOkProp, hname]
  · intro O fp blk gv bwdOp h
    simp only [decomp_bwd_op, Bool.not_true, Bool.false_eq_true, if_false, h]
  · intro O fp blk gv bwdOp blk1 gv1 res h
    simp only [decomp_bwd_op, Bool.not_true, Bool.false_eq_true, if_false] at h
    cases hcc : check_op blk (get_fwd_op blk gv bwdOp) bwdOp with
    | error e => simp only [hcc] at h; simp at h
    | ok b =>
      cases b with
      | false => simp only [hcc] at h; simp at h
      | true => rfl

/-- Claim C2, witness: the amended theorem applied at the concrete
forward/backward pair — the characterization at `tanh`/`tanh_grad`, the
fail-behaviour on a block where the variable map is empty, and the
only-if direction at a successfully decomposed run. -/
theorem claim_C2_witness :
    (check_op blkFB (some tanhOp) tanhGradOp = .ok true
      ↔ pairingOkProp blkFB tanhOp tanhGradOp)
    ∧ decomp_bwd_op O0 true true [tanhGradOp] [] tanhGradOp
        = ([tanhGradOp], [], .ok (none, false))
    ∧ check_op blkFB (get_fwd_op blkFB gvFB tanhGradOp) tanhGradOp = .ok true :=
  ⟨claim_C2_amended.1 blkFB tanhOp tanhGradOp rfl,
   claim_C2_amended.2.1 O0 true [tanhGradOp] [] tanhGradOp (by decide),
   claim_C2_amended.2.2 OVjp true blkFB gvFB tanhGradOp
     [tanhOp, vjpOpA, vjpOpB] gvFB [vNewGrad] (by decide)⟩

/-- Claim C5 (amended): `decompose_pir_program` saves the flags on entry
and force-enables them, and restores all of them to their saved values on
every **normal** exit; when a rule invocation, validator assertion or
translation step raises, the exception propagates without the restore
running, leaving all three flags force-enabled. -/
theorem claim_C5_amended :
    (∀ (O : Oracles) (s : DriverState) (pm : ParamMapping)
        (gvv : List (ExtVar × ExtVar)) (rep : Report),
        (decompose_pir_program O s pm gvv).2 = .ok rep →
        (decompose_pir_program O s pm gvv).1.flags = s.flags)
    ∧ (∀ (O : Oracles) (s : DriverState) (pm : ParamMapping)
        (gvv : List (ExtVar × ExtVar)) (e : Err),
        (decompose_pir_program O s pm gvv).2 = .error e →
        (decompose_pir_program O s pm gvv).1.flags = ⟨true, true, true⟩) := by
  constructor
  · intro O s pm gvv rep h
    simp only [decompose_pir_program] at h ⊢
    rcases hb : driverBody O s.blk pm gvv with ⟨blk1, r⟩
    cases r with
    | ok rep2 => rfl
    | error e => rw [hb] at h; exact Except.noConfusion h
  · intro O s pm gvv e h
    simp only [decompose_pir_program] at h ⊢
    rcases hb : driverBody O s.blk pm gvv with ⟨blk1, r⟩
    cases r with
    | ok rep2 => rw [hb] at h; exact Except.noConfusion h
    | error e2 => rfl

/-- Claim C5, witness for the amended statement: a normal run restores
the saved (partly disabled) flags, and the failing-translation run ends
with all flags force-enabled. -/
theorem claim_C5_witness :
    (decompose_pir_program O0 ⟨⟨false, true, false⟩, []⟩ [] []).1.flags
        = (⟨false, true, false⟩ : Flags)
    ∧ (decompose_pir_program O0 ⟨⟨false, false, false⟩, []⟩ pmBad [("og", "o")]).1.flags
        = (⟨true, true, true⟩ : Flags) :=
  ⟨claim_C5_amended.1 O0 ⟨⟨false, true, false⟩, []⟩ [] [] ⟨0, 0, [], []⟩ (by decide),
   claim_C5_amended.2 O0 ⟨⟨false, false, false⟩, []⟩ pmBad [("og", "o")]
     (.assertFail "translate pir_grad_var_to_var error") (by decide)⟩

/-- Claim C8 (amended): `decompose` with the forward flag disabled is a
pass-through no-op — it returns `src_vars` and leaves the block and the
record untouched.  `decompose_pir_program`, however, never consults the
backward flag: it force-enables the flags itself, so its effect on the
program and its outcome are identical for every initial flag state. -/
theorem claim_C8_amended :
    (∀ (O : Oracles) (gbl : List String) (blk : Blk) (record : List String)
        (srcVars : List Val) (bl wl : List String),
        decompose O false gbl blk record srcVars bl wl = (blk, record, .ok srcVars))
    ∧ (∀ (O : Oracles) (f1 f2 : Flags) (blk : Blk) (pm : ParamMapping)
        (gvv : List (ExtVar × ExtVar)),
        (decompose_pir_program O ⟨f1, blk⟩ pm gvv).1.blk
            = (decompose_pir_program O ⟨f2, blk⟩ pm gvv).1.blk
        ∧ (decompose_pir_program O ⟨f1, blk⟩ pm gvv).2
            = (decompose_pir_program O ⟨f2, blk⟩ pm gvv).2) := by
  constructor
  · intro O gbl blk record srcVars bl wl
    simp [decompose]
  · intro O f1 f2 blk pm gvv
    simp only [decompose_pir_program]
    rcases hb : driverBody O blk pm gvv with ⟨blk1, r⟩
    cases r with
    | ok rep => exact ⟨rfl, rfl⟩
    | error e => exact ⟨rfl, rfl⟩

/-- Claim C8, witness for the amended statement: the disabled-forward-flag
no-op at a block holding a decomposable op, and the flag-independence of
the driver at the concrete program (the run that the counterexample shows
to mutate the block even with the backward flag disabled). -/
theorem claim_C8_witness :
    decompose OVjp false [] blkFB [] [vOut] [] []
        = (blkFB, [], .ok [vOut])
    ∧ ((decompose_pir_program OVjp ⟨⟨false, false, false⟩, blkFB⟩ pmFB gvvFB).1.blk
        = (decompose_pir_program OVjp ⟨⟨true, true, true⟩, blkFB⟩ pmFB gvvFB).1.blk) :=
  ⟨claim_C8_amended.1 OVjp [] blkFB [] [vOut] [] [],
   (claim_C8_amended.2 OVjp ⟨false, false, false⟩ ⟨true, true, true⟩ blkFB pmFB gvvFB).1⟩

/-! ## Helper lemmas about the relocation loop -/

theorem moveOp_spec (b : Blk) (i dest : Nat) (o : Op) (h : b[i]? = some o) :
    moveOp b i dest
      = (b.take i ++ b.drop (i + 1)).take dest
          ++ o :: (b.take i ++ b.drop (i + 1)).drop dest := by
  rw [moveOp, h]

/-- The relocation loop moves a tail segment `A` of the block to the
position right after a prefix `U`, preserving the internal order of `A`
and the relative order of everything else. -/
theorem moveOps_relocate (A : Blk) : ∀ (U V : Blk),
    moveOps (U ++ V ++ A) (U.length + V.length) U.length A.length = U ++ A ++ V := by
  induction A with
  | nil => intro U V; simp [moveOps]
  | cons a A ih =>
    intro U V
    have hg : (U ++ V ++ (a :: A))[U.length + V.length]? = some a := by
      rw [List.getElem?_append_right (by simp)]
      simp
    have h1 : moveOp (U ++ V ++ (a :: A)) (U.length + V.length) U.length
        = (U ++ [a]) ++ V ++ A := by
      rw [moveOp_spec _ _ _ _ hg]
      have ht : (U ++ V ++ (a :: A)).take (U.length + V.length) = U ++ V :=
        List.take_left' (by simp)
      have hd : (U ++ V ++ (a :: A)).drop (U.length + V.length + 1) = A := by
        have he : U ++ V ++ (a :: A) = (U ++ V ++ [a]) ++ A := by simp
        rw [he]
        exact List.drop_left' (by simp; omega)
      rw [ht, hd]
      have ht2 : (U ++ V ++ A).take U.length = U := by
        rw [List.append_assoc]
        exact List.take_left' rfl
      have hd2 : (U ++ V ++ A).drop U.length = V ++ A := by
        rw [List.append_assoc]
        exact List.drop_left' rfl
      rw [ht2, hd2]
      simp
    show moveOps (moveOp (U ++ V ++ (a :: A)) (U.length + V.length) U.length)
        (U.length + V.length + 1) (U.length + 1) A.length = U ++ (a :: A) ++ V
    rw [h1]
    have key := ih (U ++ [a]) V
    simp only [List.length_append, List.length_cons, List.length_nil] at key
    rw [Nat.add_right_comm] at key
    simpa using key

theorem findIdx_oid (b : Op) (Y : Blk) : ∀ (X : Blk),
    (∀ o ∈ X, (o.oid == b.oid) = false) →
    (X ++ b :: Y).findIdx (fun o => o.oid == b.oid) = X.length := by
  intro X
  induction X with
  | nil => intro _; simp [List.findIdx_cons]
  | cons x X ih =>
    intro hx
    rw [List.cons_append, List.findIdx_cons]
    rw [hx x (by simp)]
    simp [ih (fun o ho => hx o (by simp [ho]))]

/-- The undo branch of `_decomp_bwd_with_vjp`: a single appended op that
clones the backward op's name is removed again, and the call reports
not-decomposed with block and variable map untouched. -/
theorem vjp_undo (O : Oracles) (blk : Blk) (gv : GVMap) (f b a : Op)
    (h1 : O.vjpNewOps f b = [a]) (h3 : a.name = b.name) :
    decomp_bwd_with_vjp O blk gv f b = (blk, gv, .ok (none, false)) := by
  simp only [decomp_bwd_with_vjp, h1]
  have hc : ((blk ++ [a]).length - blk.length == 1
      && ((blk ++ [a]).getLast?.map (fun x => x.name)) == some b.name) = true := by
    simp [h3]
  rw [if_pos hc]
  simp

/-- Claim C3: when the vjp invocation appends exactly one op with the
gradient op's name, `_decomp_bwd_with_vjp` removes it and returns
not-decomposed with the block and variable map exactly as before; in
every other case it returns one result per original gradient-op result
slot — a fake value where the vjp result is absent or uninitialized —
relocates the appended ops contiguously to the gradient op's original
position preserving their internal order, rewires uses, and removes the
gradient op. -/
theorem claim_C3_vjp_undo_and_relocate :
    (∀ (O : Oracles) (blk : Blk) (gv : GVMap) (f b a : Op),
        O.vjpNewOps f b = [a] → a.name = b.name →
        decomp_bwd_with_vjp O blk gv f b = (blk, gv, .ok (none, false)))
    ∧ (∀ (O : Oracles) (X Y : Blk) (gv : GVMap) (f b : Op) (A : List Op)
        (outs : List (Option Val)),
        O.vjpNewOps f b = A → O.vjpRet f b = outs →
        (∀ a, A = [a] → a.name ≠ b.name) →
        (∀ o ∈ X, o.oid ≠ b.oid) →
        (∀ o ∈ A, o.oid ≠ b.oid) →
        outs.length = b.results.length →
        decomp_bwd_with_vjp O (X ++ b :: Y) gv f b
          = (X.map (rewireOp b.results ((outs.map vjpSlot).map some))
              ++ A.map (rewireOp b.results ((outs.map vjpSlot).map some))
              ++ Y.map (rewireOp b.results ((outs.map vjpSlot).map some)),
             migrateGv gv b.results (outs.map vjpSlot),
             .ok (some (outs.map vjpSlot), true))
          ∧ (outs.map vjpSlot).length = b.results.length)
    ∧ (∀ (outs : List (Option Val)) (i : Nat) (v : Val),
        (outs[i]? = some (some v) → v.initialized = true →
          (outs.map vjpSlot)[i]? = some v)
        ∧ (outs[i]? = some none → (outs.map vjpSlot)[i]? = some fakeVal)
        ∧ (outs[i]? = some (some v) → v.initialized = false →
          (outs.map vjpSlot)[i]? = some fakeVal)) := by
  refine ⟨?_, ?_, ?_⟩
  · exact vjp_undo
  · intro O X Y gv f b A outs h1 h2 hno hx ha hlen
    refine ⟨?_, by simp [hlen]⟩
    simp only [decomp_bwd_with_vjp, h1, h2]
    have hcond : (((X ++ b :: Y) ++ A).length - (X ++ b :: Y).length == 1
        && (((X ++ b :: Y) ++ A).getLast?.map (fun x => x.name)) == some b.name)
        = false := by
      rcases A with _ | ⟨a, A'⟩
      · simp
      · rcases A' with _ | ⟨a2, A''⟩
        · have hne : a.name ≠ b.name := hno a rfl
          simp
          intro _ x hgl
          have hg2 : (b :: (Y ++ [a])).getLast? = some a := by
            rw [show b :: (Y ++ [a]) = (b :: Y) ++ [a] by simp]
            exact List.getLast?_concat _
          rw [hg2] at hgl
          cases hgl
          exact hne
        · have h9 : (((X ++ b :: Y) ++ a :: a2 :: A'').length
              - (X ++ b :: Y).length == 1) = false := by
            rw [beq_eq_false_iff_ne]
            simp
            omega
          rw [h9, Bool.false_and]
    rw [if_neg (by simp only [hcond]; simp)]
    have hreslen : ((outs.map vjpSlot).length != b.results.length) = false := by
      simp [hlen]
    rw [if_neg (by simp only [hreslen]; simp)]
    have hnum : ((X ++ b :: Y) ++ A).length - (X ++ b :: Y).length = A.length := by
      simp; omega
    have hidx : (X ++ b :: Y).findIdx (fun o => o.oid == b.oid) = X.length :=
      findIdx_oid b Y X (fun o ho => beq_eq_false_iff_ne.mpr (hx o ho))
    rw [hnum, hidx, List.length_append]
    rw [moveOps_relocate A X (b :: Y)]
    simp only [replaceUses, List.map_append, List.map_cons]
    have hX1 : ∀ o ∈ X.map (rewireOp b.results ((outs.map vjpSlot).map some)),
        ¬ (o.oid == b.oid) = true := by
      intro o ho
      rcases List.mem_map.mp ho with ⟨x, hxm, rfl⟩
      simpa [rewireOp] using hx x hxm
    have hA1 : ∀ o ∈ A.map (rewireOp b.results ((outs.map vjpSlot).map some)),
        ¬ (o.oid == b.oid) = true := by
      intro o ho
      rcases List.mem_map.mp ho with ⟨x, hxm, rfl⟩
      simpa [rewireOp] using ha x hxm
    have herase : removeByOid
        (X.map (rewireOp b.results ((outs.map vjpSlot).map some))
          ++ A.map (rewireOp b.results ((outs.map vjpSlot).map some))
          ++ (rewireOp b.results ((outs.map vjpSlot).map some) b
              :: Y.map (rewireOp b.results ((outs.map vjpSlot).map some)))) b.oid
        = X.map (rewireOp b.results ((outs.map vjpSlot).map some))
            ++ A.map (rewireOp b.results ((outs.map vjpSlot).map some))
            ++ Y.map (rewireOp b.results ((outs.map vjpSlot).map some)) := by
      simp only [removeByOid]
      rw [List.append_assoc]
      rw [List.eraseP_append_right _ hX1]
      rw [List.eraseP_append_right _ hA1]
      rw [List.eraseP_cons_of_pos (by simp [rewireOp])]
      rw [← List.append_assoc]
    rw [herase]
  · intro outs i v
    refine ⟨?_, ?_, ?_⟩
    · intro h hinit
      simp [List.getElem?_map, h, vjpSlot, hinit]
    · intro h
      simp [List.getElem?_map, h, vjpSlot]
    · intro h hinit
      simp [List.getElem?_map, h, vjpSlot, hinit]

/-- Claim C3, witness: the undo case at the concrete clone-appending
oracle, the relocation case at the concrete two-op vjp, and the slot
assembly at a one-slot return. -/
theorem claim_C3_witness :
    decomp_bwd_with_vjp OUndo blkFB gvFB tanhOp tanhGradOp
        = (blkFB, gvFB, .ok (none, false))
    ∧ decomp_bwd_with_vjp OVjp ([tanhOp] ++ tanhGradOp :: []) gvFB tanhOp tanhGradOp
        = ([tanhOp].map (rewireOp tanhGradOp.results
              ((([some vNewGrad].map vjpSlot)).map some))
            ++ [vjpOpA, vjpOpB].map (rewireOp tanhGradOp.results
              ((([some vNewGrad].map vjpSlot)).map some))
            ++ [].map (rewireOp tanhGradOp.results
              ((([some vNewGrad].map vjpSlot)).map some)),
           migrateGv gvFB tanhGradOp.results ([some vNewGrad].map vjpSlot),
           .ok (some ([some vNewGrad].map vjpSlot), true))
    ∧ ([some vNewGrad].map vjpSlot)[0]? = some vNewGrad :=
  ⟨claim_C3_vjp_undo_and_relocate.1 OUndo blkFB gvFB tanhOp tanhGradOp
      ⟨40, "pd_op.tanh_grad", [], [], [], []⟩ rfl rfl,
   (claim_C3_vjp_undo_and_relocate.2.1 OVjp [tanhOp] [] gvFB tanhOp tanhGradOp
      [vjpOpA, vjpOpB] [some vNewGrad] rfl rfl
      (by intro a h; simp at h)
      (by decide) (by decide) (by decide)).1,
   (claim_C3_vjp_undo_and_relocate.2.2 [some vNewGrad] 0 vNewGrad).1 rfl rfl⟩

theorem recordAdd_not_mem {n m : String} {r : List String} (hne : n ≠ m) (h : n ∉ r) :
    n ∉ recordAdd r m := by
  unfold recordAdd
  split
  · exact h
  · simp [h, hne]

/-- A name rejected by the filter is never added to the
`composite_ops_record` by the subgraph loop: only ops with `lower = true`
— which requires the filter to accept their name — are recorded. -/
theorem subgraphLoop_record (O : Oracles) (flt : String → Bool) (n : String)
    (hn : flt n = false) :
    ∀ (snap : List Op) (prevName : Option String) (tempOp : Option Op) (s : SubState),
      n ∉ s.record → n ∉ (subgraphLoop O flt snap prevName tempOp s).1.record := by
  intro snap
  induction snap with
  | nil => intro _ _ s h; exact h
  | cons op rest ih =>
    intro prevName tempOp s h
    simp only [subgraphLoop]
    by_cases hl : ((O.hasRule op.name || O.hasSink op) && flt op.name) = true
    · rw [if_pos hl]
      have hnn : n ≠ op.name := by
        intro e
        have h2 := (Bool.and_eq_true _ _).mp hl
        rw [← e, hn] at h2
        exact Bool.false_ne_true h2.2
      have hrec : n ∉ recordAdd s.record op.name := recordAdd_not_mem hnn h
      split
      · exact hrec
      · split
        · exact hrec
        · exact ih _ _ _ hrec
    · rw [if_neg hl]
      exact ih _ _ _ h

/-- Claim C7: the eligibility filter of `decompose` is exactly the stated
four-case blacklist/whitelist rule (over the effective blacklist, i.e.
the union of `core.prim_config["forward_blacklist"]` and the argument),
and an op whose name is in both the given blacklist and the whitelist is
never decomposed — its name is never added to the composite-ops record. -/
theorem claim_C7_deny_precedence :
    (∀ (bl wl : List String) (n : String),
       (bl ≠ [] → wl ≠ [] → (mkOpFilter bl wl n = true ↔ n ∈ wl ∧ n ∉ bl))
       ∧ (bl ≠ [] → wl = [] → (mkOpFilter bl wl n = true ↔ n ∉ bl))
       ∧ (bl = [] → wl ≠ [] → (mkOpFilter bl wl n = true ↔ n ∈ wl))
       ∧ (bl = [] → wl = [] → mkOpFilter bl wl n = true))
    ∧ (∀ (O : Oracles) (fp : Bool) (gbl : List String) (blk : Blk)
        (record : List String) (srcVars : List Val) (bl wl : List String) (n : String),
        n ∈ bl → n ∈ wl → n ∉ record →
        n ∉ (decompose O fp gbl blk record srcVars bl wl).2.1) := by
  constructor
  · intro bl wl n
    refine ⟨?_, ?_, ?_, ?_⟩
    · intro h1 h2
      rcases bl with _ | ⟨b, bl⟩
      · exact absurd rfl h1
      · rcases wl with _ | ⟨w, wl⟩
        · exact absurd rfl h2
        · simp [mkOpFilter, and_comm]
    · intro h1 h2
      subst h2
      rcases bl with _ | ⟨b, bl⟩
      · exact absurd rfl h1
      · simp [mkOpFilter]
    · intro h1 h2
      subst h1
      rcases wl with _ | ⟨w, wl⟩
      · exact absurd rfl h2
      · simp [mkOpFilter]
    · intro h1 h2
      subst h1; subst h2
      simp [mkOpFilter]
  · intro O fp gbl blk record srcVars bl wl n hbl hwl hrec
    cases fp with
    | false => simpa [decompose] using hrec
    | true =>
      simp only [decompose, Bool.not_true, Bool.false_eq_true, if_false]
      have hflt : mkOpFilter (gbl ++ bl) wl n = false := by
        have h1 : ((gbl ++ bl).length > 0 : Bool) = true := by
          simp
          rcases bl with _ | _
          · cases hbl
          · simp
        have h2 : (wl.length > 0 : Bool) = true := by
          simp
          rcases wl with _ | _
          · cases hwl
          · simp
        simp only [mkOpFilter]
        rw [if_pos (by rw [h1, h2]; rfl)]
        simp [hbl]
      rcases hsl : subgraphLoop O (mkOpFilter (gbl ++ bl) wl) blk none none
          { blk := blk, record := record,
            varTable := ((srcVars.enum.map (fun p => (p.2, p.1))).reverse,
              List.replicate srcVars.length none) } with ⟨s1, oe⟩
      have hmem := subgraphLoop_record O (mkOpFilter (gbl ++ bl) wl) n hflt blk none none
          { blk := blk, record := record,
            varTable := ((srcVars.enum.map (fun p => (p.2, p.1))).reverse,
              List.replicate srcVars.length none) } hrec
      rw [hsl] at hmem
      cases oe with
      | none => simpa using hmem
      | some e => simpa using hmem

/-- Claim C7, witness: the filter characterization and the
never-decomposed guarantee applied at a name listed in both the blacklist
and whitelist, over the concrete forward/backward block. -/
theorem claim_C7_witness :
    (mkOpFilter ["pd_op.mean"] ["pd_op.mean"] "pd_op.mean" = true
      ↔ "pd_op.mean" ∈ ["pd_op.mean"] ∧ "pd_op.mean" ∉ ["pd_op.mean"])
    ∧ "pd_op.mean"
        ∉ (decompose O0 true [] blkFB [] [] ["pd_op.mean"] ["pd_op.mean"]).2.1 :=
  ⟨(claim_C7_deny_precedence.1 ["pd_op.mean"] ["pd_op.mean"] "pd_op.mean").1
      (by decide) (by decide),
   claim_C7_deny_precedence.2 O0 true [] blkFB [] [] ["pd_op.mean"] ["pd_op.mean"]
      "pd_op.mean" (by decide) (by decide) (by decide)⟩

/-! ## Helper lemmas for the undecomposable-op path -/

theorem check_op_ok (blk : Blk) (fo : Option Op) (op : Op)
    (hlen : op.inputNames.length = op.operands.length) :
    ∃ bv, check_op blk fo op = .ok bv := by
  cases fo with
  | none => exact ⟨false, rfl⟩
  | some f =>
    rw [check_op]
    by_cases hname : (f.name ++ "_grad" != op.name) = true
    · rw [if_pos hname]; exact ⟨false, rfl⟩
    · rw [if_neg hname, if_neg (by simp [hlen])]
      exact ⟨_, rfl⟩

/-- A forward op with neither a registered rule nor native decomposition
support is left untouched: original results, not-decomposed. -/
theorem decomp_fwd_op_no_rule (O : Oracles) (blk : Blk) (gv : GVMap) (f : Op)
    (hr : O.hasRule f.name = false) (hs : O.hasSink f = false) :
    decomp_fwd_op O true blk gv f = (blk, gv, .ok (f.results.map some, false)) := by
  simp only [decomp_fwd_op, Bool.not_true, Bool.false_eq_true, if_false, hr, hs]
  simp

/-- With no rules anywhere and a clone-appending vjp, a backward op's
decomposition fails cleanly: state unchanged, not-decomposed. -/
theorem decomp_bwd_op_no_rules (O : Oracles) (blk : Blk) (gv : GVMap) (op : Op)
    (hr : ∀ nm, O.hasRule nm = false) (hs : ∀ o, O.hasSink o = false)
    (hv : ∀ f b, ∃ a, O.vjpNewOps f b = [a] ∧ a.name = b.name)
    (hlen : op.inputNames.length = op.operands.length) :
    decomp_bwd_op O true true blk gv op = (blk, gv, .ok (none, false)) := by
  rcases check_op_ok blk (get_fwd_op blk gv op) op hlen with ⟨bv, hcheck⟩
  cases bv with
  | false =>
    simp only [decomp_bwd_op, Bool.not_true, Bool.false_eq_true, if_false, hcheck]
  | true =>
    cases hg : get_fwd_op blk gv op with
    | none =>
      simp only [decomp_bwd_op, Bool.not_true, Bool.false_eq_true, if_false, hcheck, hg]
      rfl
    | some f =>
      rcases hv f op with ⟨a, hva, hname⟩
      rw [hg] at hcheck
      simp only [decomp_bwd_op, Bool.not_true, Bool.false_eq_true, if_false, hcheck, hg,
        vjp_undo O blk gv f op a hva hname,
        decomp_fwd_op_no_rule O blk gv f (hr f.name) (hs f)]

theorem recordAdd_mem_self (r : List String) (n : String) : n ∈ recordAdd r n := by
  unfold recordAdd
  split
  · simpa using (by assumption : r.contains n = true)
  · simp

theorem recordAdd_mem_of_mem {r : List String} {n : String} (m : String) (h : n ∈ r) :
    n ∈ recordAdd r m := by
  unfold recordAdd
  split
  · exact h
  · simp [h]

/-- With no rules anywhere, the driver loop is a pure bookkeeping pass:
the block survives unchanged, nothing raises, the undecomposed-name set
grows monotonically and collects every visited backward-op name. -/
theorem driverLoop_no_rules (O : Oracles)
    (hr : ∀ nm, O.hasRule nm = false) (hs : ∀ o, O.hasSink o = false)
    (hv : ∀ f b, ∃ a, O.vjpNewOps f b = [a] ∧ a.name = b.name)
    (bwdOps : List String) :
    ∀ (snap : List Op) (blk : Blk) (gv : GVMap) (rep : Report),
      (∀ op ∈ snap, op.inputNames.length = op.operands.length) →
      (driverLoop O bwdOps snap blk gv rep).1 = blk
      ∧ (driverLoop O bwdOps snap blk gv rep).2.2.2 = none
      ∧ (∀ n, n ∈ rep.undecomposedNames →
          n ∈ (driverLoop O bwdOps snap blk gv rep).2.2.1.undecomposedNames)
      ∧ (∀ op ∈ snap, op.name ∈ bwdOps →
          op.name ∈ (driverLoop O bwdOps snap blk gv rep).2.2.1.undecomposedNames) := by
  intro snap
  induction snap with
  | nil =>
    intro blk gv rep _
    exact ⟨rfl, rfl, fun n h => h, fun op h => absurd h (List.not_mem_nil op)⟩
  | cons op rest ih =>
    intro blk gv rep hlens
    by_cases hb : bwdOps.contains op.name
    · have hstep := decomp_bwd_op_no_rules O blk gv op hr hs hv (hlens op (by simp))
      have hunf : driverLoop O bwdOps (op :: rest) blk gv rep
          = driverLoop O bwdOps rest blk gv
              { rep with
                numUndecomposed := rep.numUndecomposed + 1
                undecomposedNames := recordAdd rep.undecomposedNames op.name } := by
        simp only [driverLoop, hb, if_true, hstep, Bool.false_eq_true, if_false]
      rcases ih blk gv
          { rep with
            numUndecomposed := rep.numUndecomposed + 1
            undecomposedNames := recordAdd rep.undecomposedNames op.name }
          (fun o ho => hlens o (by simp [ho])) with ⟨h1, h2, h3, h4⟩
      rw [hunf]
      refine ⟨h1, h2, ?_, ?_⟩
      · intro n hn
        exact h3 n (recordAdd_mem_of_mem op.name hn)
      · intro o ho hob
        rcases List.mem_cons.mp ho with rfl | hor
        · exact h3 o.name (recordAdd_mem_self _ _)
        · exact h4 o hor hob
    · have hb2 : bwdOps.contains op.name = false := by
        revert hb; cases bwdOps.contains op.name <;> simp
      have hunf : driverLoop O bwdOps (op :: rest) blk gv rep
          = driverLoop O bwdOps rest blk gv rep := by
        simp only [driverLoop, hb2, Bool.false_eq_true, if_false]
      rcases ih blk gv rep (fun o ho => hlens o (by simp [ho])) with ⟨h1, h2, h3, h4⟩
      rw [hunf]
      refine ⟨h1, h2, h3, ?_⟩
      intro o ho hob
      rcases List.mem_cons.mp ho with rfl | hor
      · exact absurd hob (by simpa using hb)
      · exact h4 o hor hob

/-- Every name of a block operation carrying the `_grad`/`_grad_` suffix
appears in `_get_bwd_ops_name`'s output. -/
theorem gbon_mem : ∀ (b : Blk) (acc : List String) (n : String),
    (n ∈ acc ∨ ∃ op ∈ b, op.name = n
        ∧ (strEndsWith n "_grad" || strEndsWith n "_grad_") = true) →
    n ∈ get_bwd_ops_name b acc := by
  intro b
  induction b with
  | nil =>
    intro acc n h
    rcases h with h | ⟨op, hop, _⟩
    · exact h
    · exact absurd hop (List.not_mem_nil op)
  | cons op rest ih =>
    intro acc n h
    rw [get_bwd_ops_name]
    split
    · apply ih
      rcases h with h | ⟨op2, hop2, hn, hsuf⟩
      · left; simp [h]
      · rcases List.mem_cons.mp hop2 with rfl | hor
        · left; simp [hn]
        · right; exact ⟨op2, hor, hn, hsuf⟩
    · next hguard =>
      apply ih
      rcases h with h | ⟨op2, hop2, hn, hsuf⟩
      · left; exact h
      · rcases List.mem_cons.mp hop2 with rfl | hor
        · left
          subst hn
          have hcont : acc.contains op2.name = true := by
            revert hguard
            cases hc : acc.contains op2.name
            · intro hguard
              exfalso
              apply hguard
              rw [hsuf]
              rfl
            · intro _; rfl
          simpa using hcont
        · right; exact ⟨op2, hor, hn, hsuf⟩

/-- Claim C4: a gradient op whose paired forward op has neither a
registered decomposition rule nor native decomposition support is handled
without damage — `_decomp_fwd_op` returns the original results and
`False` leaving the block untouched, `_decomp_bwd_op` returns
not-decomposed with block and variable map unchanged, and the program
driver completes normally, leaves the block as it was, restores the
flags, and reports every such gradient op's name under the undecomposed
set. -/
theorem claim_C4_undecomposed_reported :
    (∀ (O : Oracles) (blk : Blk) (gv : GVMap) (f : Op),
        O.hasRule f.name = false → O.hasSink f = false →
        decomp_fwd_op O true blk gv f = (blk, gv, .ok (f.results.map some, false)))
    ∧ (∀ (O : Oracles) (blk : Blk) (gv : GVMap) (op : Op),
        (∀ nm, O.hasRule nm = false) → (∀ o, O.hasSink o = false) →
        (∀ f b, ∃ a, O.vjpNewOps f b = [a] ∧ a.name = b.name) →
        op.inputNames.length = op.operands.length →
        decomp_bwd_op O true true blk gv op = (blk, gv, .ok (none, false)))
    ∧ (∀ (O : Oracles) (flags : Flags) (blk : Blk) (pm : ParamMapping)
        (gvv : List (ExtVar × ExtVar)) (gv0 : GVMap),
        (∀ nm, O.hasRule nm = false) → (∀ o, O.hasSink o = false) →
        (∀ f b, ∃ a, O.vjpNewOps f b = [a] ∧ a.name = b.name) →
        (∀ op ∈ blk, op.inputNames.length = op.operands.length) →
        translate_gradvartovar blk pm gvv = .ok gv0 →
        (decompose_pir_program O ⟨flags, blk⟩ pm gvv).1 = ⟨flags, blk⟩
        ∧ ∃ rep, (decompose_pir_program O ⟨flags, blk⟩ pm gvv).2 = .ok rep
            ∧ ∀ op ∈ blk,
                (strEndsWith op.name "_grad" || strEndsWith op.name "_grad_") = true →
                op.name ∈ rep.undecomposedNames) := by
  refine ⟨decomp_fwd_op_no_rule, decomp_bwd_op_no_rules, ?_⟩
  intro O flags blk pm gvv gv0 hr hs hv hlens htr
  rcases driverLoop_no_rules O hr hs hv (get_bwd_ops_name blk []) blk blk gv0
      ⟨0, 0, [], []⟩ hlens with ⟨h1, h2, _, h4⟩
  rcases hdl : driverLoop O (get_bwd_ops_name blk []) blk blk gv0 ⟨0, 0, [], []⟩
    with ⟨blk1, gv1, rep1, oerr⟩
  rw [hdl] at h1 h2 h4
  have h1e : blk1 = blk := h1
  have h2e : oerr = none := h2
  have hbody : driverBody O blk pm gvv = (blk, .ok rep1) := by
    simp only [driverBody, htr, hdl, h2e, h1e]
  refine ⟨?_, rep1, ?_, ?_⟩
  · simp only [decompose_pir_program, hbody]
  · simp only [decompose_pir_program, hbody]
  · intro op hop hsuf
    have hb : op.name ∈ get_bwd_ops_name blk [] :=
      gbon_mem blk [] op.name (Or.inr ⟨op, hop, rfl, hsuf⟩)
    exact h4 op hop hb

/-- Claim C4, witness: the three parts applied at the concrete
`tanh`/`tanh_grad` block with the clone-appending oracle — the forward op
untouched, the gradient op untouched, the driver completing with the
block intact and restored flags. -/
theorem claim_C4_witness :
    decomp_fwd_op OUndo true blkFB gvFB tanhOp
        = (blkFB, gvFB, .ok ([some vOut], false))
    ∧ decomp_bwd_op OUndo true true blkFB gvFB tanhGradOp
        = (blkFB, gvFB, .ok (none, false))
    ∧ (decompose_pir_program OUndo ⟨⟨true, false, true⟩, blkFB⟩ pmFB gvvFB).1
        = ⟨⟨true, false, true⟩, blkFB⟩ :=
  ⟨claim_C4_undecomposed_reported.1 OUndo blkFB gvFB tanhOp rfl rfl,
   claim_C4_undecomposed_reported.2.1 OUndo blkFB gvFB tanhGradOp
     (fun _ => rfl) (fun _ => rfl)
     (fun _ b => ⟨⟨40, b.name, [], [], [], []⟩, rfl, rfl⟩) rfl,
   (claim_C4_undecomposed_reported.2.2 OUndo ⟨true, false, true⟩ blkFB pmFB gvvFB gvFB
     (fun _ => rfl) (fun _ => rfl)
     (fun _ b => ⟨⟨40, b.name, [], [], [], []⟩, rfl, rfl⟩)
     (by decide) (by decide)).1⟩

end DecompPass
